import Mathlib

/-!
# Verification of the TCCompare diff core

Shallow embedding of the diff engine of the TCCompare repository:
text normalization (`getCleanTextContent`, `getFirstTwoLinesKey`), record
reconstruction (`processRawData`), the row matcher (`areRowsEqual`), the
LCS sequence aligner (`performLcsDiff`) and the word-diff engine
(`createDiff` in the TextDiff component), together with theorems settling
the specification claims about them.

Rich-text cells are embedded as `String` (the source holds them as HTML
fragment strings); a logical record (`RowData`, a JS object keyed by
column name) is embedded as an association list with JS-object update
semantics; the DOM operation "set `innerHTML`, read `textContent`" is
modelled as removal of `<...>` tag spans.
-/

/-- The whitespace class used by the source's `\s` regex and `String.trim`
(space, tab, line feed, carriage return, vertical tab, form feed; exotic
Unicode spaces are not modelled). -/
def isJsWs (c : Char) : Bool :=
  c = ' ' || c = '\t' || c = '\n' || c = '\r' || c = Char.ofNat 11 || c = Char.ofNat 12

/-- JS `String.prototype.trim` on a character list: drop whitespace from
both ends. -/
def trimL (cs : List Char) : List Char :=
  ((cs.dropWhile isJsWs).reverse.dropWhile isJsWs).reverse

/-- JS `String.prototype.trim`. -/
def trimStr (s : String) : String :=
  String.mk (trimL s.data)

/-- Splits a character list at the first `'>'`: returns the characters
before it (none of which is `'>'`) and the characters after it. `none`
when no `'>'` occurs. -/
def splitAtGt : List Char → Option (List Char × List Char)
  | [] => none
  | c :: rest =>
    if c = '>' then some ([], rest)
    else
      match splitAtGt rest with
      | some (pre, post) => some (c :: pre, post)
      | none => none

theorem splitAtGt_append : ∀ {cs pre post : List Char},
    splitAtGt cs = some (pre, post) → pre ++ '>' :: post = cs := by
  intro cs
  induction cs with
  | nil => intro pre post h; simp [splitAtGt] at h
  | cons c rest ih =>
    intro pre post h
    by_cases hc : c = '>'
    · simp [splitAtGt, hc] at h
      simp [h.1.symm, h.2.symm, hc]
    · simp only [splitAtGt, if_neg hc] at h
      cases hr : splitAtGt rest with
      | none => rw [hr] at h; simp at h
      | some pr =>
        obtain ⟨p1, p2⟩ := pr
        rw [hr] at h
        simp at h
        obtain ⟨h1, h2⟩ := h
        subst h1
        subst h2
        simpa using ih hr

theorem splitAtGt_length {cs pre post : List Char}
    (h : splitAtGt cs = some (pre, post)) : post.length < cs.length := by
  have := splitAtGt_append h
  subst this
  simp
  omega

/-- Embeds `getCleanTextContent`'s use of the DOM (`div.innerHTML := s;
div.textContent`) as a scan with an inside-a-tag flag: every `<` up to the
next `>` is removed as a tag span; a trailing unterminated `<...` is also
removed (the DOM parser swallows it). -/
def stripTagsAux : Bool → List Char → List Char
  | _, [] => []
  | true, c :: rest =>
    if c = '>' then stripTagsAux false rest else stripTagsAux true rest
  | false, c :: rest =>
    if c = '<' then stripTagsAux true rest else c :: stripTagsAux false rest

/-- Removal of `<...>` tag spans from a character list. -/
def stripTags (cs : List Char) : List Char :=
  stripTagsAux false cs

/-- Embeds `getCleanTextContent` (App.tsx): strip markup from an HTML
fragment string and trim the resulting text. The non-string / empty-input
guard of the source returns the same empty string this definition does. -/
def getCleanTextContent (s : String) : String :=
  String.mk (trimL (stripTags s.data))

/-- Case-insensitive literal match at the head of a character list
(pattern given in lowercase); returns the remainder on success. Embeds the
literal parts of the `getFirstTwoLinesKey` break regex with its `i` flag. -/
def matchCI : List Char → List Char → Option (List Char)
  | [], cs => some cs
  | _ :: _, [] => none
  | p :: ps, c :: cs => if c.toLower = p then matchCI ps cs else none

theorem matchCI_length : ∀ {pat cs rest : List Char},
    matchCI pat cs = some rest → pat.length + rest.length = cs.length := by
  intro pat
  induction pat with
  | nil => intro cs rest h; simp [matchCI] at h; simp [h]
  | cons p ps ih =>
    intro cs rest h
    cases cs with
    | nil => simp [matchCI] at h
    | cons c cs' =>
      by_cases hc : c.toLower = p
      · simp only [matchCI, if_pos hc] at h
        have := ih h
        simp
        omega
      · simp [matchCI, hc] at h

/-- Matches one break marker of the `getFirstTwoLinesKey` regex
`<br\s*\/?>|<\/p>|<\/div>` (case-insensitively) at the head of the list,
returning the remainder after the marker. -/
def matchBreak (cs : List Char) : Option (List Char) :=
  match matchCI "<br".data cs with
  | some r =>
    match r.dropWhile isJsWs with
    | '/' :: '>' :: rest => some rest
    | '>' :: rest => some rest
    | _ => none
  | none =>
    match matchCI "</p>".data cs with
    | some r => some r
    | none =>
      match matchCI "</div>".data cs with
      | some r => some r
      | none => none

theorem length_dropWhile_le (p : Char → Bool) :
    ∀ l : List Char, (l.dropWhile p).length ≤ l.length := by
  intro l
  induction l with
  | nil => simp [List.dropWhile]
  | cons c rest ih =>
    by_cases h : p c
    · simp only [List.dropWhile, h]
      simp
      omega
    · simp [List.dropWhile, h]

theorem matchBreak_length {cs rest : List Char}
    (h : matchBreak cs = some rest) : rest.length < cs.length := by
  have hlen3 : ("<br".data).length = 3 := rfl
  have hlen4 : ("</p>".data).length = 4 := rfl
  have hlen6 : ("</div>".data).length = 6 := rfl
  unfold matchBreak at h
  split at h
  case _ r h1 =>
    have hr := matchCI_length h1
    rw [hlen3] at hr
    have hd := length_dropWhile_le isJsWs r
    split at h
    case _ r2 hdw =>
      injection h with h
      subst h
      rw [hdw] at hd
      simp at hd
      omega
    case _ r2 hdw =>
      injection h with h
      subst h
      rw [hdw] at hd
      simp at hd
      omega
    case _ => exact absurd h (by simp)
  case _ h1 =>
    split at h
    case _ r h2 =>
      injection h with h
      subst h
      have := matchCI_length h2
      rw [hlen4] at this
      omega
    case _ h2 =>
      split at h
      case _ r h3 =>
        injection h with h
        subst h
        have := matchCI_length h3
        rw [hlen6] at this
        omega
      case _ => exact absurd h (by simp)

/-- The literal separator string `getFirstTwoLinesKey` substitutes for the
break markers. -/
def lbSep : List Char := "||LINE_BREAK||".data

/-- Splits a character list at each break-marker occurrence, scanning left
to right: embeds the global regex replacement of
`htmlString.replace(/<br\s*\/?>|<\/p>|<\/div>/gi, sep)` as the list of
segments between the replaced markers. The fuel argument only bounds the
recursion; it is passed as the list length, which every step strictly
decreases, so the fuel-exhausted branch is never taken. -/
def breaksLoopF : Nat → List Char → List Char → List (List Char)
  | _, [], acc => [acc]
  | 0, _ :: _, acc => [acc]
  | fuel + 1, c :: rest, acc =>
    match matchBreak (c :: rest) with
    | some rest' => acc :: breaksLoopF fuel rest' []
    | none => breaksLoopF fuel rest (acc ++ [c])

/-- Segment list of a string around its break markers. -/
def breakSegments (cs : List Char) : List (List Char) :=
  breaksLoopF cs.length cs []

/-- Splits a character list on exact (non-overlapping, leftmost-first)
occurrences of `lbSep`: embeds `textContent.split('||LINE_BREAK||')`.
Fuel as in `breaksLoopF`. -/
def splitSepLoopF : Nat → List Char → List Char → List (List Char)
  | _, [], acc => [acc]
  | 0, _ :: _, acc => [acc]
  | fuel + 1, c :: rest, acc =>
    if lbSep.isPrefixOf (c :: rest) then
      acc :: splitSepLoopF fuel ((c :: rest).drop lbSep.length) []
    else
      splitSepLoopF fuel rest (acc ++ [c])

/-- Split on the `lbSep` separator. -/
def splitSep (cs : List Char) : List (List Char) :=
  splitSepLoopF cs.length cs []

/-- Embeds `getFirstTwoLinesKey` (App.tsx): replace break tags by a
separator, strip the remaining markup, split on the separator, trim each
line, drop empty lines, keep the first two, join with a space and trim. -/
def getFirstTwoLinesKey (s : String) : String :=
  if s.data = [] then ""
  else
    let withSeparators := List.intercalate lbSep (breakSegments s.data)
    let textContent := stripTags withSeparators
    let lines := ((splitSep textContent).map trimL).filter (· ≠ [])
    String.mk (trimL (List.intercalate [' '] (lines.take 2)))

/-- A logical record: the JS object mapping clean column names to raw cell
HTML, embedded as an association list in key-insertion order. -/
abbrev RowData : Type := List (String × String)

instance {ε α : Type} [DecidableEq ε] [DecidableEq α] : DecidableEq (Except ε α) :=
  fun x y =>
    match x, y with
    | .ok a, .ok b =>
      if h : a = b then .isTrue (by rw [h]) else .isFalse (by intro he; cases he; exact h rfl)
    | .error a, .error b =>
      if h : a = b then .isTrue (by rw [h]) else .isFalse (by intro he; cases he; exact h rfl)
    | .ok _, .error _ => .isFalse (by intro he; cases he)
    | .error _, .ok _ => .isFalse (by intro he; cases he)

/-- JS property read `row[key] ?? ""` / `row[key] || ""` (the cell values
stored are strings, so `??` and `|| ''` agree except that `|| ''` also
sends `""` to `""`). -/
def rowGet (r : RowData) (key : String) : String :=
  match r.find? (fun p => p.1 = key) with
  | some p => p.2
  | none => ""

/-- JS property write `row[key] = v`: overwrites an existing key in place,
otherwise appends the key. -/
def setKey : RowData → String → String → RowData
  | [], key, v => [(key, v)]
  | (k, w) :: rest, key, v =>
    if k = key then (key, v) :: rest else (k, w) :: setKey rest key v

/-- The three required column names of `processRawData`. -/
def requiredHeaders : List String := ["Step Order", "Procedure", "Expected Outcome"]

/-- One row of the header scan: the row qualifies when its cleaned cell
texts contain every required header name. -/
def isHeaderQualifying (row : List String) : Bool :=
  requiredHeaders.all (fun h => (row.map getCleanTextContent).contains h)

/-- The header scan of `processRawData`: first qualifying row's cleaned
texts become the column keys; the rows after it are the data rows. -/
def findHeader : List (List String) → Option (List String × List (List String))
  | [] => none
  | row :: rest =>
    if isHeaderQualifying row then some (row.map getCleanTextContent, rest)
    else findHeader rest

/-- Zips the column keys positionally onto one raw row
(`rowObject[header] = rowArray[index] ?? ""`), with JS-object overwrite
semantics for duplicate clean header names. -/
def buildRecord (cleanHeaders : List String) (rowArray : List String) : RowData :=
  (cleanHeaders.enum).foldl (fun r p => setKey r p.2 (rowArray.getD p.1 "")) ([] : RowData)

/-- The continuation-row merge: appends each non-empty (and not
markup-only) cell of `row` onto the corresponding field of `parent`. -/
def appendContinuation (cleanHeaders : List String) (parent row : RowData) : RowData :=
  cleanHeaders.foldl
    (fun p h =>
      let contentToAppend := rowGet row h
      if contentToAppend ≠ "" ∧ getCleanTextContent contentToAppend ≠ "" then
        setKey p h ((rowGet p h) ++ contentToAppend)
      else p)
    parent

/-- Category-row test used inside `processRawData`'s merge loop: cleaned
identifier empty, cleaned procedure (after a redundant trim) non-empty,
cleaned outcome empty. -/
def mergeIsCategory (row : RowData) : Bool :=
  getCleanTextContent (rowGet row "Step Order") = "" &&
  trimStr (getCleanTextContent (rowGet row "Procedure")) ≠ "" &&
  getCleanTextContent (rowGet row "Expected Outcome") = ""

/-- Step-row test used inside `processRawData`'s merge loop. -/
def mergeIsStep (row : RowData) : Bool :=
  trimStr (getCleanTextContent (rowGet row "Step Order")) ≠ ""

/-- The continuation-merging loop of `processRawData`. The mutable
`lastParentRow` object reference of the source is embedded as the index of
the last emitted step row in the output being built (`none` after a
category row or before any step row); mutating the referenced object is
embedded as updating the record at that index. -/
def mergeLoop (cleanHeaders : List String) :
    List RowData → List RowData → Option Nat → List RowData
  | [], merged, _ => merged
  | row :: rest, merged, parentIdx =>
    if mergeIsCategory row then
      mergeLoop cleanHeaders rest (merged ++ [row]) none
    else if mergeIsStep row then
      mergeLoop cleanHeaders rest (merged ++ [row]) (some merged.length)
    else
      match parentIdx with
      | some idx =>
        mergeLoop cleanHeaders rest
          (merged.set idx (appendContinuation cleanHeaders (merged.getD idx default) row))
          (some idx)
      | none => mergeLoop cleanHeaders rest (merged ++ [row]) none

/-- Embeds `processRawData` (App.tsx): returns `[]` on an empty grid,
fails when no row qualifies as the header row, and otherwise builds and
continuation-merges the records after the header row. -/
def processRawData (rawData : List (List String)) : Except String (List RowData) :=
  if rawData = [] then .ok []
  else
    match findHeader rawData with
    | none =>
      .error "Could not find the table header row containing \"Step Order, Procedure, Expected Outcome\"."
    | some (cleanHeaders, dataRows) =>
      .ok (mergeLoop cleanHeaders (dataRows.map (buildRecord cleanHeaders)) [] none)

/-- The two comparison modes (`'step' | 'content'`): `step` is
BY_IDENTIFIER, `content` is BY_CONTENT_SIGNATURE. -/
inductive MatchPolicy where
  | step
  | content
deriving DecidableEq, Repr

/-- The classification tag of an alignment pair. -/
inductive ChangeType where
  | ADDED
  | DELETED
  | MODIFIED
  | UNCHANGED
deriving DecidableEq, Repr

/-- One result unit of the aligner (`ComparisonRowPair`). -/
structure ComparisonRowPair where
  status : ChangeType
  original : Option RowData
  revised : Option RowData
  key : String
deriving DecidableEq, Repr

/-- Category test of the row matcher (`areRowsEqual` and the backtrack
loop of `performLcsDiff`): cleaned identifier empty, cleaned procedure
non-empty, cleaned outcome empty. -/
def isCategoryRow (r : RowData) : Bool :=
  getCleanTextContent (rowGet r "Step Order") = "" &&
  getCleanTextContent (rowGet r "Procedure") ≠ "" &&
  getCleanTextContent (rowGet r "Expected Outcome") = ""

/-- Embeds `areRowsEqual` (App.tsx), the equality oracle of the aligner:
category rows compare by cleaned procedure text; a category row never
equals a non-category row; otherwise BY_IDENTIFIER compares the raw
trimmed `Step Order` strings and BY_CONTENT_SIGNATURE requires a
non-empty, identical leading-lines key of the `Procedure` field. -/
def areRowsEqual (mode : MatchPolicy) (rowA rowB : RowData) : Bool :=
  let isCategoryA := isCategoryRow rowA
  let isCategoryB := isCategoryRow rowB
  if isCategoryA && isCategoryB then
    getCleanTextContent (rowGet rowA "Procedure") = getCleanTextContent (rowGet rowB "Procedure")
  else if isCategoryA != isCategoryB then
    false
  else
    match mode with
    | .step => trimStr (rowGet rowA "Step Order") = trimStr (rowGet rowB "Step Order")
    | .content =>
      let keyA := getFirstTwoLinesKey (rowGet rowA "Procedure")
      let keyB := getFirstTwoLinesKey (rowGet rowB "Procedure")
      trimStr keyA ≠ "" && keyA = keyB

/-- Status of a matched pair, from the backtrack loop of `performLcsDiff`:
category matches are always UNCHANGED; BY_IDENTIFIER compares the
serialized `{proc, outcome}` pair (`JSON.stringify` of two string fields
agrees exactly when both fields agree); BY_CONTENT_SIGNATURE compares the
trimmed procedure, outcome and identifier fields. -/
def matchStatus (mode : MatchPolicy) (originalRow revisedRow : RowData) : ChangeType :=
  if isCategoryRow originalRow then ChangeType.UNCHANGED
  else
    match mode with
    | .step =>
      if rowGet originalRow "Procedure" = rowGet revisedRow "Procedure" ∧
         rowGet originalRow "Expected Outcome" = rowGet revisedRow "Expected Outcome" then
        ChangeType.UNCHANGED
      else ChangeType.MODIFIED
    | .content =>
      if trimStr (rowGet originalRow "Procedure") = trimStr (rowGet revisedRow "Procedure") ∧
         trimStr (rowGet originalRow "Expected Outcome") = trimStr (rowGet revisedRow "Expected Outcome") ∧
         trimStr (rowGet originalRow "Step Order") = trimStr (rowGet revisedRow "Step Order") then
        ChangeType.UNCHANGED
      else ChangeType.MODIFIED

/-- The LCS length table `dp` shared by `performLcsDiff` and the word-diff
`createDiff`: `dp i j` is the table cell for the first `i` elements of `A`
and the first `j` of `B`. The fuel argument is passed as `i + j`, which
every recursive call maintains, so the fuel-exhausted branch is never
taken. -/
def lcsLenF (eqf : α → α → Bool) (d : α) (A B : List α) : Nat → Nat → Nat → Nat
  | _, 0, _ => 0
  | _, _ + 1, 0 => 0
  | 0, _ + 1, _ + 1 => 0
  | fuel + 1, i + 1, j + 1 =>
    if eqf (A.getD i d) (B.getD j d) then lcsLenF eqf d A B fuel i j + 1
    else max (lcsLenF eqf d A B fuel i (j + 1)) (lcsLenF eqf d A B fuel (i + 1) j)

/-- The LCS table cell `dp[i][j]`. -/
def lcsLen (eqf : α → α → Bool) (d : α) (A B : List α) (i j : Nat) : Nat :=
  lcsLenF eqf d A B (i + j) i j

/-- The backtrack loop of `performLcsDiff`, building the
`ComparisonRowPair` list. The source's `while (i > 0 || j > 0)` loop with
`unshift` is embedded as recursion appending the pair emitted at `(i, j)`
after the pairs of the remaining iterations; its unreachable final
`break` branch is dropped (one of the three guarded branches always
fires). Fuel is passed as `i + j` and decreases with every emitted pair,
so the fuel-exhausted branch is never taken. -/
def backtrackRowsF (mode : MatchPolicy) (original revised : List RowData) :
    Nat → Nat → Nat → List ComparisonRowPair
  | _, 0, 0 => []
  | 0, _, _ => []
  | fuel + 1, 0, j + 1 =>
    backtrackRowsF mode original revised fuel 0 j ++
      [⟨ChangeType.ADDED, none, some (revised.getD j default), "revised-" ++ toString (j + 1)⟩]
  | fuel + 1, i + 1, 0 =>
    backtrackRowsF mode original revised fuel i 0 ++
      [⟨ChangeType.DELETED, some (original.getD i default), none, "original-" ++ toString (i + 1)⟩]
  | fuel + 1, i + 1, j + 1 =>
    let originalRow := original.getD i default
    let revisedRow := revised.getD j default
    if areRowsEqual mode originalRow revisedRow then
      backtrackRowsF mode original revised fuel i j ++
        [⟨matchStatus mode originalRow revisedRow, some originalRow, some revisedRow,
          "match-" ++ toString (i + 1) ++ "-" ++ toString (j + 1)⟩]
    else if lcsLen (areRowsEqual mode) default original revised (i + 1) j ≥
            lcsLen (areRowsEqual mode) default original revised i (j + 1) then
      backtrackRowsF mode original revised fuel (i + 1) j ++
        [⟨ChangeType.ADDED, none, some revisedRow, "revised-" ++ toString (j + 1)⟩]
    else
      backtrackRowsF mode original revised fuel i (j + 1) ++
        [⟨ChangeType.DELETED, some originalRow, none, "original-" ++ toString (i + 1)⟩]

/-- The full backtrack from `(i, j)`. -/
def backtrackRows (mode : MatchPolicy) (original revised : List RowData) (i j : Nat) :
    List ComparisonRowPair :=
  backtrackRowsF mode original revised (i + j) i j

/-- De-duplication keeping first occurrences, embedding
`Array.from(new Set(...))` (a JS `Set` preserves insertion order). -/
def dedupFirst : List String → List String
  | [] => []
  | x :: rest => x :: dedupFirst (rest.filter (· ≠ x))
termination_by l => l.length
decreasing_by
  simp only [List.length_cons]
  exact Nat.lt_succ_of_le (List.length_filter_le _ rest)

/-- The aligner's result table (`ComparisonResult`). -/
structure ComparisonResult where
  headers : List String
  rows : List ComparisonRowPair
deriving DecidableEq, Repr

/-- The aggregate change counts. -/
structure DiffSummary where
  added : Nat
  deleted : Nat
  modified : Nat
deriving DecidableEq, Repr

/-- The aligner's full output (`ComparisonOutput`). -/
structure ComparisonOutput where
  result : ComparisonResult
  diffSummary : DiffSummary
deriving DecidableEq, Repr

/-- Embeds `performLcsDiff` (App.tsx): LCS alignment of the two record
sequences with `areRowsEqual` as oracle, classified pair list from the
backtrack, aggregate counts, and the de-duplicated union of both first
records' column keys as header list. -/
def performLcsDiff (original revised : List RowData) (mode : MatchPolicy) :
    ComparisonOutput :=
  let pairedRows := backtrackRows mode original revised original.length revised.length
  let diffSummary : DiffSummary :=
    ⟨(pairedRows.filter (fun p => p.status = ChangeType.ADDED)).length,
     (pairedRows.filter (fun p => p.status = ChangeType.DELETED)).length,
     (pairedRows.filter (fun p => p.status = ChangeType.MODIFIED)).length⟩
  let allHeaders :=
    dedupFirst (((original.head?).getD default).map Prod.fst ++
                ((revised.head?).getD default).map Prod.fst)
  ⟨⟨allHeaders, pairedRows⟩, diffSummary⟩

/-- Tags of the word-diff segments (`DiffType` in TextDiff.tsx). -/
inductive DiffType where
  | COMMON
  | ADDED
  | DELETED
deriving DecidableEq, Repr

/-- One token-level diff unit (`DiffSegment`). -/
structure DiffSegment where
  type : DiffType
  value : String
deriving DecidableEq, Repr

/-- Matches the `<[^>]+>` alternative of the tokenizer's split regex at the
head of the list: `'<'`, at least one non-`'>'` character, then `'>'`.
Returns the matched tag token and the remainder. -/
def matchTag : List Char → Option (List Char × List Char)
  | '<' :: afterLt =>
    match splitAtGt afterLt with
    | some (pre, post) => if pre = [] then none else some ('<' :: pre ++ ['>'], post)
    | none => none
  | _ => none

theorem matchTag_append {cs tag rest : List Char}
    (h : matchTag cs = some (tag, rest)) : tag ++ rest = cs := by
  unfold matchTag at h
  split at h
  next afterLt =>
    split at h
    next pre post hsp =>
      split at h
      next => simp at h
      next hpre =>
        injection h with h
        injection h with h1 h2
        subst h1
        subst h2
        have := splitAtGt_append hsp
        simp [← this]
    next => simp at h
  next => simp at h

theorem matchTag_length {cs tag rest : List Char}
    (h : matchTag cs = some (tag, rest)) : rest.length < cs.length := by
  have happ := matchTag_append h
  have htag : tag ≠ [] := by
    intro he
    rw [he] at happ
    unfold matchTag at h
    split at h
    next afterLt =>
      split at h
      next pre post hsp =>
        split at h
        next => simp at h
        next hpre =>
          injection h with h
          injection h with h1 h2
          subst he
          simp at h1
      next => simp at h
    next => simp at h
  calc rest.length < tag.length + rest.length := by
        cases tag with
        | nil => exact absurd rfl htag
        | cons t ts => simp only [List.length_cons]; omega
    _ = cs.length := by rw [← happ]; simp

/-- Emit the pending word accumulator as a token if it is non-empty.
(`split(...).filter(Boolean)` keeps only non-empty pieces; word pieces are
emitted here exactly when non-empty, and separator tokens are always
non-empty.) -/
def emitWord (wacc : List Char) (toks : List (List Char)) : List (List Char) :=
  if wacc = [] then toks else wacc :: toks

/-- Tokenizer of the word-diff engine: embeds
`text.split(/(<[^>]+>|\s+)/).filter(Boolean)` as a left-to-right scan. At
each position a separator may start: a `<[^>]+>` tag token or a maximal
whitespace run; other characters accumulate into word tokens. Fuel is
passed as the list length; every step strictly shortens the list, so the
fuel-exhausted branch is never taken. -/
def tokLoopF : Nat → List Char → List Char → List (List Char)
  | _, [], wacc => emitWord wacc []
  | 0, _ :: _, wacc => emitWord wacc []
  | fuel + 1, c :: rest, wacc =>
    if isJsWs c then
      emitWord wacc
        (((c :: rest).takeWhile isJsWs) :: tokLoopF fuel ((c :: rest).dropWhile isJsWs) [])
    else
      match matchTag (c :: rest) with
      | some (tagTok, rest') => emitWord wacc (tagTok :: tokLoopF fuel rest' [])
      | none => tokLoopF fuel rest (wacc ++ [c])

/-- Token stream of one rich-text fragment. -/
def tokenize (s : String) : List String :=
  (tokLoopF s.data.length s.data []).map String.mk

/-- Exact string equality, the oracle of the word-diff LCS
(`originalWords[i-1] === revisedWords[j-1]`). -/
def strEq (a b : String) : Bool := a = b

/-- The backtrack loop of `createDiff` (TextDiff.tsx): structurally the
same `while (i > 0 || j > 0)` loop as the aligner's, emitting
`DiffSegment`s over the token lists with exact token equality as oracle.
Fuel as in `backtrackRowsF`. -/
def diffBacktrackF (originalWords revisedWords : List String) :
    Nat → Nat → Nat → List DiffSegment
  | _, 0, 0 => []
  | 0, _, _ => []
  | fuel + 1, 0, j + 1 =>
    diffBacktrackF originalWords revisedWords fuel 0 j ++
      [⟨DiffType.ADDED, revisedWords.getD j ""⟩]
  | fuel + 1, i + 1, 0 =>
    diffBacktrackF originalWords revisedWords fuel i 0 ++
      [⟨DiffType.DELETED, originalWords.getD i ""⟩]
  | fuel + 1, i + 1, j + 1 =>
    if strEq (originalWords.getD i "") (revisedWords.getD j "") then
      diffBacktrackF originalWords revisedWords fuel i j ++
        [⟨DiffType.COMMON, originalWords.getD i ""⟩]
    else if lcsLen strEq "" originalWords revisedWords (i + 1) j ≥
            lcsLen strEq "" originalWords revisedWords i (j + 1) then
      diffBacktrackF originalWords revisedWords fuel (i + 1) j ++
        [⟨DiffType.ADDED, revisedWords.getD j ""⟩]
    else
      diffBacktrackF originalWords revisedWords fuel i (j + 1) ++
        [⟨DiffType.DELETED, originalWords.getD i ""⟩]

/-- The full backtrack from `(i, j)` of the word-diff engine. -/
def diffBacktrack (originalWords revisedWords : List String) (i j : Nat) :
    List DiffSegment :=
  diffBacktrackF originalWords revisedWords (i + j) i j

/-- Embeds `createDiff` (TextDiff.tsx): tokenize both fragments, run the
LCS backtrack over the token lists. -/
def createDiff (original revised : String) : List DiffSegment :=
  let originalWords := tokenize original
  let revisedWords := tokenize revised
  diffBacktrack originalWords revisedWords originalWords.length revisedWords.length

/-- Embeds the `TextDiff` component's rendering as a segment list: when
the two fragments are identical it renders the original fragment as one
plain (COMMON) span without running `createDiff`; otherwise it renders
`createDiff`'s segments. -/
def textDiffSegments (originalText revisedText : String) : List DiffSegment :=
  if originalText = revisedText then [⟨DiffType.COMMON, originalText⟩]
  else createDiff originalText revisedText

/-! ## Helper lemmas -/

theorem take_succ_getD (d : α) : ∀ (l : List α) (i : Nat), i < l.length →
    l.take (i + 1) = l.take i ++ [l.getD i d] := by
  intro l
  induction l with
  | nil => intro i h; simp at h
  | cons x xs ih =>
    intro i h
    cases i with
    | zero => simp [List.getD]
    | succ i =>
      simp only [List.take_succ_cons, List.getD_cons_succ]
      rw [ih i (by simpa using h)]
      simp

theorem matchStatus_ne_added (mode : MatchPolicy) (a b : RowData) :
    matchStatus mode a b ≠ ChangeType.ADDED := by
  unfold matchStatus
  cases mode <;> split_ifs <;> simp

theorem matchStatus_ne_deleted (mode : MatchPolicy) (a b : RowData) :
    matchStatus mode a b ≠ ChangeType.DELETED := by
  unfold matchStatus
  cases mode <;> split_ifs <;> simp

/-- The original-side record sequence of the pairs whose status is not
ADDED. -/
def origEntries (pairs : List ComparisonRowPair) : List RowData :=
  pairs.filterMap (fun p => if p.status = ChangeType.ADDED then none else p.original)

/-- The revised-side record sequence of the pairs whose status is not
DELETED. -/
def revEntries (pairs : List ComparisonRowPair) : List RowData :=
  pairs.filterMap (fun p => if p.status = ChangeType.DELETED then none else p.revised)

theorem backtrackRowsF_entries (mode : MatchPolicy) (A B : List RowData) :
    ∀ fuel i j, i + j ≤ fuel → i ≤ A.length → j ≤ B.length →
      origEntries (backtrackRowsF mode A B fuel i j) = A.take i ∧
      revEntries (backtrackRowsF mode A B fuel i j) = B.take j := by
  intro fuel
  induction fuel with
  | zero =>
    intro i j hf _ _
    have hi : i = 0 := by omega
    have hj : j = 0 := by omega
    subst hi; subst hj
    simp [backtrackRowsF, origEntries, revEntries]
  | succ fuel ih =>
    intro i j hf hA hB
    cases i with
    | zero =>
      cases j with
      | zero => simp [backtrackRowsF, origEntries, revEntries]
      | succ j =>
        have hIH := ih 0 j (by omega) (by omega) (by omega)
        rw [show (backtrackRowsF mode A B (fuel + 1) 0 (j + 1)) =
            backtrackRowsF mode A B fuel 0 j ++
              [⟨ChangeType.ADDED, none, some (B.getD j default),
                "revised-" ++ toString (j + 1)⟩] from rfl]
        unfold origEntries revEntries at hIH ⊢
        rw [List.filterMap_append, List.filterMap_append]
        constructor
        · simp [hIH.1]
        · rw [take_succ_getD default B j (by omega)]
          simp [hIH.2]
    | succ i =>
      cases j with
      | zero =>
        have hIH := ih i 0 (by omega) (by omega) (by omega)
        rw [show (backtrackRowsF mode A B (fuel + 1) (i + 1) 0) =
            backtrackRowsF mode A B fuel i 0 ++
              [⟨ChangeType.DELETED, some (A.getD i default), none,
                "original-" ++ toString (i + 1)⟩] from rfl]
        unfold origEntries revEntries at hIH ⊢
        rw [List.filterMap_append, List.filterMap_append]
        constructor
        · rw [take_succ_getD default A i (by omega)]
          simp [hIH.1]
        · simp [hIH.2]
      | succ j =>
        rw [show (backtrackRowsF mode A B (fuel + 1) (i + 1) (j + 1)) =
            (if areRowsEqual mode (A.getD i default) (B.getD j default) then
              backtrackRowsF mode A B fuel i j ++
                [⟨matchStatus mode (A.getD i default) (B.getD j default),
                  some (A.getD i default), some (B.getD j default),
                  "match-" ++ toString (i + 1) ++ "-" ++ toString (j + 1)⟩]
            else if lcsLen (areRowsEqual mode) default A B (i + 1) j ≥
                    lcsLen (areRowsEqual mode) default A B i (j + 1) then
              backtrackRowsF mode A B fuel (i + 1) j ++
                [⟨ChangeType.ADDED, none, some (B.getD j default),
                  "revised-" ++ toString (j + 1)⟩]
            else
              backtrackRowsF mode A B fuel i (j + 1) ++
                [⟨ChangeType.DELETED, some (A.getD i default), none,
                  "original-" ++ toString (i + 1)⟩]) from rfl]
        split_ifs with h1 h2
        · have hIH := ih i j (by omega) (by omega) (by omega)
          unfold origEntries revEntries at hIH ⊢
          rw [List.filterMap_append, List.filterMap_append]
          constructor
          · rw [take_succ_getD default A i (by omega)]
            simp [hIH.1, matchStatus_ne_added]
          · rw [take_succ_getD default B j (by omega)]
            simp [hIH.2, matchStatus_ne_deleted]
        · have hIH := ih (i + 1) j (by omega) (by omega) (by omega)
          unfold origEntries revEntries at hIH ⊢
          rw [List.filterMap_append, List.filterMap_append]
          constructor
          · simp [hIH.1]
          · rw [take_succ_getD default B j (by omega)]
            simp [hIH.2]
        · have hIH := ih i (j + 1) (by omega) (by omega) (by omega)
          unfold origEntries revEntries at hIH ⊢
          rw [List.filterMap_append, List.filterMap_append]
          constructor
          · rw [take_succ_getD default A i (by omega)]
            simp [hIH.1]
          · simp [hIH.2]

/-! ## Claim theorems: sequence aligner -/

/-- C1. Edit-script validity of the aligner: for all record sequences and
either match policy, the original-side entries of the pairs whose status
is not ADDED reproduce the original sequence in order, and the
revised-side entries of the pairs whose status is not DELETED reproduce
the revised sequence in order. -/
theorem aligner_edit_script_validity (A B : List RowData) (mode : MatchPolicy) :
    origEntries (performLcsDiff A B mode).result.rows = A ∧
    revEntries (performLcsDiff A B mode).result.rows = B := by
  have h := backtrackRowsF_entries mode A B (A.length + B.length) A.length B.length
    (le_refl _) (le_refl _) (le_refl _)
  rw [List.take_length, List.take_length] at h
  exact h

theorem matchStatus_category (mode : MatchPolicy) (a b : RowData)
    (h : isCategoryRow a = true) : matchStatus mode a b = ChangeType.UNCHANGED := by
  unfold matchStatus
  rw [h]
  simp

theorem backtrackRowsF_category_unchanged (mode : MatchPolicy) (A B : List RowData) :
    ∀ fuel i j (p : ComparisonRowPair) (a b : RowData),
      p ∈ backtrackRowsF mode A B fuel i j →
      p.original = some a → p.revised = some b →
      isCategoryRow a = true → p.status = ChangeType.UNCHANGED := by
  intro fuel
  induction fuel with
  | zero =>
    intro i j p a b hp _ _ _
    cases i <;> cases j <;> simp [backtrackRowsF] at hp
  | succ fuel ih =>
    intro i j p a b hp hoa hob hcat
    cases i with
    | zero =>
      cases j with
      | zero => simp [backtrackRowsF] at hp
      | succ j =>
        rw [show (backtrackRowsF mode A B (fuel + 1) 0 (j + 1)) =
            backtrackRowsF mode A B fuel 0 j ++
              [⟨ChangeType.ADDED, none, some (B.getD j default),
                "revised-" ++ toString (j + 1)⟩] from rfl] at hp
        rcases List.mem_append.mp hp with hmem | hmem
        · exact ih 0 j p a b hmem hoa hob hcat
        · simp at hmem
          rw [hmem] at hoa
          simp at hoa
    | succ i =>
      cases j with
      | zero =>
        rw [show (backtrackRowsF mode A B (fuel + 1) (i + 1) 0) =
            backtrackRowsF mode A B fuel i 0 ++
              [⟨ChangeType.DELETED, some (A.getD i default), none,
                "original-" ++ toString (i + 1)⟩] from rfl] at hp
        rcases List.mem_append.mp hp with hmem | hmem
        · exact ih i 0 p a b hmem hoa hob hcat
        · simp at hmem
          rw [hmem] at hob
          simp at hob
      | succ j =>
        rw [show (backtrackRowsF mode A B (fuel + 1) (i + 1) (j + 1)) =
            (if areRowsEqual mode (A.getD i default) (B.getD j default) then
              backtrackRowsF mode A B fuel i j ++
                [⟨matchStatus mode (A.getD i default) (B.getD j default),
                  some (A.getD i default), some (B.getD j default),
                  "match-" ++ toString (i + 1) ++ "-" ++ toString (j + 1)⟩]
            else if lcsLen (areRowsEqual mode) default A B (i + 1) j ≥
                    lcsLen (areRowsEqual mode) default A B i (j + 1) then
              backtrackRowsF mode A B fuel (i + 1) j ++
                [⟨ChangeType.ADDED, none, some (B.getD j default),
                  "revised-" ++ toString (j + 1)⟩]
            else
              backtrackRowsF mode A B fuel i (j + 1) ++
                [⟨ChangeType.DELETED, some (A.getD i default), none,
                  "original-" ++ toString (i + 1)⟩]) from rfl] at hp
        split_ifs at hp with h1 h2
        · rcases List.mem_append.mp hp with hmem | hmem
          · exact ih i j p a b hmem hoa hob hcat
          · simp at hmem
            rw [hmem] at hoa ⊢
            simp at hoa
            rw [← hoa] at hcat
            simpa using matchStatus_category mode _ _ hcat
        · rcases List.mem_append.mp hp with hmem | hmem
          · exact ih (i + 1) j p a b hmem hoa hob hcat
          · simp at hmem
            rw [hmem] at hoa
            simp at hoa
        · rcases List.mem_append.mp hp with hmem | hmem
          · exact ih i (j + 1) p a b hmem hoa hob hcat
          · simp at hmem
            rw [hmem] at hob
            simp at hob

/-- C8. Matched category pairs are never MODIFIED: in every pair list
produced by the aligner, under either policy, a pair with both sides
present whose records are category rows has status UNCHANGED. -/
theorem matched_category_pairs_unchanged (A B : List RowData) (mode : MatchPolicy)
    (p : ComparisonRowPair) (a b : RowData)
    (hp : p ∈ (performLcsDiff A B mode).result.rows)
    (hoa : p.original = some a) (hob : p.revised = some b)
    (ha : isCategoryRow a = true) (hb : isCategoryRow b = true) :
    p.status = ChangeType.UNCHANGED :=
  backtrackRowsF_category_unchanged mode A B (A.length + B.length) A.length B.length
    p a b hp hoa hob ha

/-- C5. LCS backtrack tie-break: in both the sequence aligner and the
word-diff engine, when the current elements are unequal under the oracle
and the two neighbor DP cells hold equal LCS counts, the backtrack emits
the revised-side element as ADDED (moving along the revised axis), not the
original-side element as DELETED. -/
theorem backtrack_tie_break_prefers_added :
    (∀ (mode : MatchPolicy) (A B : List RowData) (i j : Nat),
      areRowsEqual mode (A.getD i default) (B.getD j default) = false →
      lcsLen (areRowsEqual mode) default A B (i + 1) j =
        lcsLen (areRowsEqual mode) default A B i (j + 1) →
      backtrackRows mode A B (i + 1) (j + 1) =
        backtrackRows mode A B (i + 1) j ++
          [⟨ChangeType.ADDED, none, some (B.getD j default),
            "revised-" ++ toString (j + 1)⟩]) ∧
    (∀ (ow rw : List String) (i j : Nat),
      strEq (ow.getD i "") (rw.getD j "") = false →
      lcsLen strEq "" ow rw (i + 1) j = lcsLen strEq "" ow rw i (j + 1) →
      diffBacktrack ow rw (i + 1) (j + 1) =
        diffBacktrack ow rw (i + 1) j ++ [⟨DiffType.ADDED, rw.getD j ""⟩]) := by
  constructor
  · intro mode A B i j hne htie
    show backtrackRowsF mode A B ((i + 1) + j + 1) (i + 1) (j + 1) =
      backtrackRowsF mode A B ((i + 1) + j) (i + 1) j ++
        [⟨ChangeType.ADDED, none, some (B.getD j default),
          "revised-" ++ toString (j + 1)⟩]
    rw [show (backtrackRowsF mode A B ((i + 1) + j + 1) (i + 1) (j + 1)) =
        (if areRowsEqual mode (A.getD i default) (B.getD j default) then
          backtrackRowsF mode A B ((i + 1) + j) i j ++
            [⟨matchStatus mode (A.getD i default) (B.getD j default),
              some (A.getD i default), some (B.getD j default),
              "match-" ++ toString (i + 1) ++ "-" ++ toString (j + 1)⟩]
        else if lcsLen (areRowsEqual mode) default A B (i + 1) j ≥
                lcsLen (areRowsEqual mode) default A B i (j + 1) then
          backtrackRowsF mode A B ((i + 1) + j) (i + 1) j ++
            [⟨ChangeType.ADDED, none, some (B.getD j default),
              "revised-" ++ toString (j + 1)⟩]
        else
          backtrackRowsF mode A B ((i + 1) + j) i (j + 1) ++
            [⟨ChangeType.DELETED, some (A.getD i default), none,
              "original-" ++ toString (i + 1)⟩]) from rfl]
    rw [hne]
    simp only [Bool.false_eq_true, if_false, htie, ge_iff_le, le_refl, if_true]
  · intro ow rw i j hne htie
    show diffBacktrackF ow rw ((i + 1) + j + 1) (i + 1) (j + 1) =
      diffBacktrackF ow rw ((i + 1) + j) (i + 1) j ++ [⟨DiffType.ADDED, rw.getD j ""⟩]
    rw [show (diffBacktrackF ow rw ((i + 1) + j + 1) (i + 1) (j + 1)) =
        (if strEq (ow.getD i "") (rw.getD j "") then
          diffBacktrackF ow rw ((i + 1) + j) i j ++ [⟨DiffType.COMMON, ow.getD i ""⟩]
        else if lcsLen strEq "" ow rw (i + 1) j ≥ lcsLen strEq "" ow rw i (j + 1) then
          diffBacktrackF ow rw ((i + 1) + j) (i + 1) j ++ [⟨DiffType.ADDED, rw.getD j ""⟩]
        else
          diffBacktrackF ow rw ((i + 1) + j) i (j + 1) ++
            [⟨DiffType.DELETED, ow.getD i ""⟩]) from rfl]
    rw [hne]
    simp only [Bool.false_eq_true, if_false, htie, ge_iff_le, le_refl, if_true]

/-- Closed instance of the tie-break theorem at concrete inputs on both
engines. -/
theorem backtrack_tie_break_prefers_added_witness :
    (backtrackRows MatchPolicy.step
        [[("Step Order", "1")]] [[("Step Order", "2")]] 1 1 =
      backtrackRows MatchPolicy.step
        [[("Step Order", "1")]] [[("Step Order", "2")]] 1 0 ++
        [⟨ChangeType.ADDED, none, some [("Step Order", "2")], "revised-1"⟩]) ∧
    (diffBacktrack ["x"] ["y"] 1 1 =
      diffBacktrack ["x"] ["y"] 1 0 ++ [⟨DiffType.ADDED, "y"⟩]) :=
  ⟨by
    have h := backtrack_tie_break_prefers_added.1 MatchPolicy.step
      [[("Step Order", "1")]] [[("Step Order", "2")]] 0 0 (by decide) (by decide)
    simpa using h,
   by
    have h := backtrack_tie_break_prefers_added.2 ["x"] ["y"] 0 0 (by decide) (by decide)
    simpa using h⟩

/-! ## Word-diff engine: tokenizer and reconstruction -/

theorem emitWord_join (wacc : List Char) (toks : List (List Char)) :
    (emitWord wacc toks).flatten = wacc ++ toks.flatten := by
  unfold emitWord
  split_ifs with h
  · simp [h]
  · simp

theorem tokLoopF_join : ∀ fuel cs wacc, cs.length ≤ fuel →
    (tokLoopF fuel cs wacc).flatten = wacc ++ cs := by
  intro fuel
  induction fuel with
  | zero =>
    intro cs wacc h
    have hnil : cs = [] := by
      cases cs with
      | nil => rfl
      | cons c r => simp at h
    subst hnil
    simp [tokLoopF, emitWord_join]
  | succ fuel ih =>
    intro cs wacc h
    cases cs with
    | nil => simp [tokLoopF, emitWord_join]
    | cons c rest =>
      rw [show tokLoopF (fuel + 1) (c :: rest) wacc =
          (if isJsWs c then
            emitWord wacc
              (((c :: rest).takeWhile isJsWs) ::
                tokLoopF fuel ((c :: rest).dropWhile isJsWs) [])
          else
            match matchTag (c :: rest) with
            | some (tagTok, rest') => emitWord wacc (tagTok :: tokLoopF fuel rest' [])
            | none => tokLoopF fuel rest (wacc ++ [c])) from rfl]
      by_cases hws : isJsWs c
      · rw [if_pos hws, emitWord_join]
        simp only [List.flatten_cons]
        have hdrop : ((c :: rest).dropWhile isJsWs).length ≤ fuel := by
          rw [List.dropWhile_cons_of_pos hws]
          have := length_dropWhile_le isJsWs rest
          simp at h
          omega
        rw [ih ((c :: rest).dropWhile isJsWs) [] hdrop]
        simp [List.takeWhile_append_dropWhile]
      · rw [if_neg hws]
        cases hmt : matchTag (c :: rest) with
        | some pr =>
          obtain ⟨tagTok, rest'⟩ := pr
          show (emitWord wacc (tagTok :: tokLoopF fuel rest' [])).flatten = wacc ++ c :: rest
          rw [emitWord_join]
          simp only [List.flatten_cons]
          have hlt := matchTag_length hmt
          simp only [List.length_cons] at hlt
          simp at h
          rw [ih rest' [] (by omega)]
          have := matchTag_append hmt
          simp [← this]
        | none =>
          show (tokLoopF fuel rest (wacc ++ [c])).flatten = wacc ++ c :: rest
          rw [ih rest (wacc ++ [c]) (by simp at h; omega)]
          simp

theorem mk_append_mk (a b : List Char) :
    String.mk a ++ String.mk b = String.mk (a ++ b) := rfl

theorem foldl_append_map_mk : ∀ (L : List (List Char)) (acc : List Char),
    (L.map String.mk).foldl (fun r s => r ++ s) (String.mk acc) = String.mk (acc ++ L.flatten) := by
  intro L
  induction L with
  | nil => intro acc; simp
  | cons a L ih =>
    intro acc
    simp only [List.map_cons, List.foldl_cons]
    rw [mk_append_mk, ih (acc ++ a)]
    simp

/-- Concatenating the whole token stream of a fragment gives back the
fragment. -/
theorem tokenize_join (s : String) : String.join (tokenize s) = s := by
  unfold tokenize String.join
  have h0 : ("" : String) = String.mk [] := rfl
  rw [h0, foldl_append_map_mk, tokLoopF_join s.data.length s.data [] (le_refl _)]
  simp

/-- The original-side token stream of a segment list: values of the
segments whose tag is COMMON or DELETED (i.e. not ADDED). -/
def origTokens (segs : List DiffSegment) : List String :=
  (segs.filter (fun sg => sg.type ≠ DiffType.ADDED)).map (fun sg => sg.value)

/-- The revised-side token stream of a segment list: values of the
segments whose tag is COMMON or ADDED (i.e. not DELETED). -/
def revTokens (segs : List DiffSegment) : List String :=
  (segs.filter (fun sg => sg.type ≠ DiffType.DELETED)).map (fun sg => sg.value)

theorem diffBacktrackF_tokens (ow rw : List String) :
    ∀ fuel i j, i + j ≤ fuel → i ≤ ow.length → j ≤ rw.length →
      origTokens (diffBacktrackF ow rw fuel i j) = ow.take i ∧
      revTokens (diffBacktrackF ow rw fuel i j) = rw.take j := by
  intro fuel
  induction fuel with
  | zero =>
    intro i j hf _ _
    have hi : i = 0 := by omega
    have hj : j = 0 := by omega
    subst hi; subst hj
    simp [diffBacktrackF, origTokens, revTokens]
  | succ fuel ih =>
    intro i j hf hA hB
    cases i with
    | zero =>
      cases j with
      | zero => simp [diffBacktrackF, origTokens, revTokens]
      | succ j =>
        have hIH := ih 0 j (by omega) (by omega) (by omega)
        rw [show (diffBacktrackF ow rw (fuel + 1) 0 (j + 1)) =
            diffBacktrackF ow rw fuel 0 j ++ [⟨DiffType.ADDED, rw.getD j ""⟩] from rfl]
        unfold origTokens revTokens at hIH ⊢
        simp only [ne_eq, decide_not] at hIH ⊢
        rw [List.filter_append, List.filter_append, List.map_append, List.map_append]
        constructor
        · simp [hIH.1]
        · rw [take_succ_getD "" rw j (by omega)]
          simp [hIH.2]
    | succ i =>
      cases j with
      | zero =>
        have hIH := ih i 0 (by omega) (by omega) (by omega)
        rw [show (diffBacktrackF ow rw (fuel + 1) (i + 1) 0) =
            diffBacktrackF ow rw fuel i 0 ++ [⟨DiffType.DELETED, ow.getD i ""⟩] from rfl]
        unfold origTokens revTokens at hIH ⊢
        simp only [ne_eq, decide_not] at hIH ⊢
        rw [List.filter_append, List.filter_append, List.map_append, List.map_append]
        constructor
        · rw [take_succ_getD "" ow i (by omega)]
          simp [hIH.1]
        · simp [hIH.2]
      | succ j =>
        rw [show (diffBacktrackF ow rw (fuel + 1) (i + 1) (j + 1)) =
            (if strEq (ow.getD i "") (rw.getD j "") then
              diffBacktrackF ow rw fuel i j ++ [⟨DiffType.COMMON, ow.getD i ""⟩]
            else if lcsLen strEq "" ow rw (i + 1) j ≥ lcsLen strEq "" ow rw i (j + 1) then
              diffBacktrackF ow rw fuel (i + 1) j ++ [⟨DiffType.ADDED, rw.getD j ""⟩]
            else
              diffBacktrackF ow rw fuel i (j + 1) ++
                [⟨DiffType.DELETED, ow.getD i ""⟩]) from rfl]
        split_ifs with h1 h2
        · have heq : ow.getD i "" = rw.getD j "" := by
            simpa [strEq] using h1
          have hIH := ih i j (by omega) (by omega) (by omega)
          unfold origTokens revTokens at hIH ⊢
          simp only [ne_eq, decide_not] at hIH ⊢
          rw [List.filter_append, List.filter_append, List.map_append, List.map_append]
          constructor
          · rw [take_succ_getD "" ow i (by omega)]
            simp [hIH.1]
          · rw [take_succ_getD "" rw j (by omega)]
            simp [hIH.2]
            simpa [List.getD] using heq
        · have hIH := ih (i + 1) j (by omega) (by omega) (by omega)
          unfold origTokens revTokens at hIH ⊢
          simp only [ne_eq, decide_not] at hIH ⊢
          rw [List.filter_append, List.filter_append, List.map_append, List.map_append]
          constructor
          · simp [hIH.1]
          · rw [take_succ_getD "" rw j (by omega)]
            simp [hIH.2]
        · have hIH := ih i (j + 1) (by omega) (by omega) (by omega)
          unfold origTokens revTokens at hIH ⊢
          simp only [ne_eq, decide_not] at hIH ⊢
          rw [List.filter_append, List.filter_append, List.map_append, List.map_append]
          constructor
          · rw [take_succ_getD "" ow i (by omega)]
            simp [hIH.1]
          · simp [hIH.2]

/-- C7. Word-diff reconstruction: for every pair of input strings, the
COMMON∪DELETED segment values are exactly the original token stream
(hence concatenate to the original string), and the COMMON∪ADDED values
are exactly the revised token stream (hence concatenate to the revised
string). -/
theorem word_diff_reconstruction (o r : String) :
    origTokens (createDiff o r) = tokenize o ∧
    String.join (origTokens (createDiff o r)) = o ∧
    revTokens (createDiff o r) = tokenize r ∧
    String.join (revTokens (createDiff o r)) = r := by
  have h := diffBacktrackF_tokens (tokenize o) (tokenize r)
    ((tokenize o).length + (tokenize r).length) (tokenize o).length (tokenize r).length
    (le_refl _) (le_refl _) (le_refl _)
  rw [List.take_length, List.take_length] at h
  have h1 : origTokens (createDiff o r) = tokenize o := h.1
  have h2 : revTokens (createDiff o r) = tokenize r := h.2
  refine ⟨h1, ?_, h2, ?_⟩
  · rw [h1, tokenize_join]
  · rw [h2, tokenize_join]

/-! ## Claim theorems: matcher, reconstructor, word-diff short-circuit -/

/-- C3 counterexample: two non-category records whose identifier fields
differ only in markup normalize to the same text, yet the BY_IDENTIFIER
oracle reports them unequal — `areRowsEqual` compares the raw trimmed
identifier strings, not the markup-stripped ones. -/
theorem byIdentifier_markup_counterexample :
    getCleanTextContent "<b>1</b>" = getCleanTextContent "1" ∧
    isCategoryRow [("Step Order", "<b>1</b>"), ("Procedure", "P"), ("Expected Outcome", "O")] = false ∧
    isCategoryRow [("Step Order", "1"), ("Procedure", "P"), ("Expected Outcome", "O")] = false ∧
    areRowsEqual MatchPolicy.step
      [("Step Order", "<b>1</b>"), ("Procedure", "P"), ("Expected Outcome", "O")]
      [("Step Order", "1"), ("Procedure", "P"), ("Expected Outcome", "O")] = false := by
  decide

/-- C3 (amended). Row Matcher equality under BY_IDENTIFIER: for records
neither of which is a category, `areRowsEqual` holds iff the RAW
identifier strings (markup included) are identical after trimming. -/
theorem byIdentifier_equal_iff_raw_trimmed (a b : RowData)
    (ha : isCategoryRow a = false) (hb : isCategoryRow b = false) :
    areRowsEqual MatchPolicy.step a b = true ↔
      trimStr (rowGet a "Step Order") = trimStr (rowGet b "Step Order") := by
  simp [areRowsEqual, ha, hb]

/-- Closed instance of the amended C3 theorem. -/
theorem byIdentifier_equal_iff_raw_trimmed_witness :
    areRowsEqual MatchPolicy.step
        [("Step Order", " 1 "), ("Expected Outcome", "O")]
        [("Step Order", "1"), ("Expected Outcome", "O")] = true ↔
      trimStr (rowGet [("Step Order", " 1 "), ("Expected Outcome", "O")] "Step Order") =
        trimStr (rowGet [("Step Order", "1"), ("Expected Outcome", "O")] "Step Order") :=
  byIdentifier_equal_iff_raw_trimmed _ _ (by decide) (by decide)

/-- C10. Under BY_IDENTIFIER, two non-category records whose identifier
fields are both empty after trimming are reported equal, regardless of
their other fields. -/
theorem byIdentifier_empty_ids_equal (a b : RowData)
    (ha : isCategoryRow a = false) (hb : isCategoryRow b = false)
    (hea : trimStr (rowGet a "Step Order") = "")
    (heb : trimStr (rowGet b "Step Order") = "") :
    areRowsEqual MatchPolicy.step a b = true := by
  simp [areRowsEqual, ha, hb, hea, heb]

/-- Closed instance of C10: an outcome-only orphan row and a row with
procedure and outcome content match under BY_IDENTIFIER. -/
theorem byIdentifier_empty_ids_equal_witness :
    areRowsEqual MatchPolicy.step [("Expected Outcome", "X")]
      [("Procedure", "Q"), ("Expected Outcome", "Y")] = true :=
  byIdentifier_empty_ids_equal _ _ (by decide) (by decide) (by decide) (by decide)

/-- C4. Mode divergence: single-record sequences differing only in the
identifier ("1" vs "2") with identical procedure and outcome give one
DELETED and one ADDED pair under BY_IDENTIFIER, and one MODIFIED pair
under BY_CONTENT_SIGNATURE. -/
theorem mode_divergence :
    (performLcsDiff
      [[("Step Order", "1"), ("Procedure", "Do the thing"), ("Expected Outcome", "R")]]
      [[("Step Order", "2"), ("Procedure", "Do the thing"), ("Expected Outcome", "R")]]
      MatchPolicy.step).result.rows =
      [⟨ChangeType.DELETED,
        some [("Step Order", "1"), ("Procedure", "Do the thing"), ("Expected Outcome", "R")],
        none, "original-1"⟩,
       ⟨ChangeType.ADDED, none,
        some [("Step Order", "2"), ("Procedure", "Do the thing"), ("Expected Outcome", "R")],
        "revised-1"⟩] ∧
    (performLcsDiff
      [[("Step Order", "1"), ("Procedure", "Do the thing"), ("Expected Outcome", "R")]]
      [[("Step Order", "2"), ("Procedure", "Do the thing"), ("Expected Outcome", "R")]]
      MatchPolicy.content).result.rows =
      [⟨ChangeType.MODIFIED,
        some [("Step Order", "1"), ("Procedure", "Do the thing"), ("Expected Outcome", "R")],
        some [("Step Order", "2"), ("Procedure", "Do the thing"), ("Expected Outcome", "R")],
        "match-1-1"⟩] ∧
    getFirstTwoLinesKey "Do the thing" ≠ "" := by
  refine ⟨by decide, by decide, by decide⟩

/-- C2 counterexample: on the grid of the claim, reconstruction yields
THREE records, not the claimed two — the middle row (empty identifier,
non-empty procedure, empty outcome) is classified as a category row and
emitted standalone instead of being merged. -/
theorem continuation_merge_counterexample :
    processRawData
      [["Step Order", "Procedure", "Expected Outcome"],
       ["1", "A", ""], ["", "B", ""], ["2", "C", ""]] =
      Except.ok [[("Step Order", "1"), ("Procedure", "A"), ("Expected Outcome", "")],
                 [("Step Order", ""), ("Procedure", "B"), ("Expected Outcome", "")],
                 [("Step Order", "2"), ("Procedure", "C"), ("Expected Outcome", "")]] ∧
    processRawData
      [["Step Order", "Procedure", "Expected Outcome"],
       ["1", "A", ""], ["", "B", ""], ["2", "C", ""]] ≠
      Except.ok [[("Step Order", "1"), ("Procedure", "AB"), ("Expected Outcome", "")],
                 [("Step Order", "2"), ("Procedure", "C"), ("Expected Outcome", "")]] := by
  refine ⟨by decide, by decide⟩

/-- C2 (amended). A middle row with only procedure content is a category
row and stays standalone (three records); a middle row that also carries
a non-empty outcome is a genuine continuation and is merged into record 1
by markup concatenation (two records, procedure "AB"). -/
theorem continuation_merge_amended :
    processRawData
      [["Step Order", "Procedure", "Expected Outcome"],
       ["1", "A", ""], ["", "B", ""], ["2", "C", ""]] =
      Except.ok [[("Step Order", "1"), ("Procedure", "A"), ("Expected Outcome", "")],
                 [("Step Order", ""), ("Procedure", "B"), ("Expected Outcome", "")],
                 [("Step Order", "2"), ("Procedure", "C"), ("Expected Outcome", "")]] ∧
    processRawData
      [["Step Order", "Procedure", "Expected Outcome"],
       ["1", "A", ""], ["", "B", "X"], ["2", "C", ""]] =
      Except.ok [[("Step Order", "1"), ("Procedure", "AB"), ("Expected Outcome", "X")],
                 [("Step Order", "2"), ("Procedure", "C"), ("Expected Outcome", "")]] := by
  refine ⟨by decide, by decide⟩

/-- C6 counterexample: the empty grid does NOT fail with a
header-not-found error — `processRawData` returns the empty record list
before scanning for a header. -/
theorem header_not_found_empty_grid_counterexample :
    processRawData [] = Except.ok [] := by
  decide

theorem findHeader_none_of_no_qualifying :
    ∀ g : List (List String), (∀ row ∈ g, isHeaderQualifying row = false) →
      findHeader g = none := by
  intro g
  induction g with
  | nil => intro _; rfl
  | cons row rest ih =>
    intro h
    unfold findHeader
    rw [h row (by simp)]
    simp only [Bool.false_eq_true, if_false]
    exact ih (fun r hr => h r (by simp [hr]))

/-- C6 (amended). For every NON-empty grid in which no row's normalized
cell texts contain all three required column names, reconstruction fails
with the header-not-found error; the empty grid instead returns an empty
record sequence. -/
theorem header_not_found_failure (g : List (List String)) (hne : g ≠ [])
    (hno : ∀ row ∈ g, isHeaderQualifying row = false) :
    processRawData g =
      Except.error "Could not find the table header row containing \"Step Order, Procedure, Expected Outcome\"." := by
  unfold processRawData
  rw [if_neg hne, findHeader_none_of_no_qualifying g hno]

/-- Closed instance of the amended C6 theorem. -/
theorem header_not_found_failure_witness :
    processRawData [["x"]] =
      Except.error "Could not find the table header row containing \"Step Order, Procedure, Expected Outcome\"." :=
  header_not_found_failure [["x"]] (by decide) (by decide)

/-- C9. Word-diff short-circuit on identical input: when the two
fragments are textually identical (markup included), the diff is a single
COMMON segment whose value is the original fragment. -/
theorem word_diff_identical_short_circuit (s : String) :
    textDiffSegments s s = [⟨DiffType.COMMON, s⟩] := by
  simp [textDiffSegments]

/-- Closed instance of C8: the pair matching two identical category rows
is in the aligner's output with both sides present, and the theorem
forces its status to UNCHANGED. -/
theorem matched_category_pairs_unchanged_witness :
    (⟨ChangeType.UNCHANGED, some [("Procedure", "Section A")],
      some [("Procedure", "Section A")], "match-1-1"⟩ : ComparisonRowPair).status =
      ChangeType.UNCHANGED :=
  matched_category_pairs_unchanged [[("Procedure", "Section A")]]
    [[("Procedure", "Section A")]] MatchPolicy.step
    ⟨ChangeType.UNCHANGED, some [("Procedure", "Section A")],
      some [("Procedure", "Section A")], "match-1-1"⟩
    [("Procedure", "Section A")] [("Procedure", "Section A")]
    (by decide) (by decide) (by decide) (by decide) (by decide)
